import Mathlib

/-!
Shallow embedding of the copy-trade simulation engine
(`src/lib/copyTradeSim.ts` of minimissile/polymarket-tool) and proofs about
it.

Modelling conventions:
* JavaScript `number` inputs are modelled by `JsNum`: an exact rational for
  finite values plus the three non-finite values (`NaN`, `Infinity`,
  `-Infinity`).  Floating-point rounding of host arithmetic is idealised
  away; every claim proved here is about the engine's fixed-point integer
  core, which the source computes exactly in `BigInt`.
* `BigInt` values are `ℤ`.  JavaScript `BigInt` division truncates toward
  zero, so it is embedded as `Int.tdiv`.  `BigInt` division by zero throws
  a `RangeError`, whereas `Int.tdiv x 0 = 0` is total: the one place the
  engine can divide by zero is the fixed-mode `desiredQtyAbs`, evaluated
  before the positivity guard, so the source throws away the whole replay
  on a fixed-mode trade whose scaled price is `0n` while the state machine
  below drops that trade silently.  `completesWithoutThrow` characterises
  the runs on which the two semantics coincide; the claims touched by this
  error path are stated under it.
* `Math.round` rounds half toward positive infinity: `⌊q + 1/2⌋`.
* JavaScript `Map` is an insertion-ordered association list; `lookupA` and
  `setA` mirror `Map.get` / `Map.set` (updating in place, appending new
  keys at the end).  The engine only iterates the realized-by-market map,
  whose order the embedding preserves.
* `Array.prototype.sort` with the comparator `(a, b) => a.ts - b.ts` is a
  stable sort; any stable sort by the same total key yields the same list,
  so it is embedded as a stable insertion sort.
* The ambient clock `Date.now()` (used only when the replay produced no
  equity point) enters as an explicit parameter `now` (seconds), and the
  host local timezone used by `Date#getHours` / `Date#getDay` as a fixed
  offset `tz` in seconds east of UTC (DST changes are not modelled; no
  claim depends on them).
* Skip reasons are formatted strings in the source (their text depends on
  the host timezone via `formatTs`); they are embedded as structured
  values `SkipReason` carrying the same data in the same encounter order.
* `summary.sharpeRatio` is `mean/std * Math.sqrt(n)` in the source, an
  irrational function of the step returns; the embedding records the
  determining triple (mean, sample variance, sample count) instead.
-/

namespace CopyTradeSim

/-- JavaScript `number` inputs as the engine receives them: a finite value
(idealised as an exact rational) or one of the non-finite values. -/
inductive JsNum where
  | fin (val : ℚ)
  | nan
  | inf
  | ninf
deriving DecidableEq

/-- Mirrors `Number.isFinite`. -/
def JsNum.isFinite : JsNum → Bool
  | .fin _ => true
  | _ => false

/-- Embeds `clampFinite(value, fallback)`:
`Number.isFinite(value) ? value : fallback`. -/
def clampFinite (value : JsNum) (fallback : ℚ) : JsNum :=
  match value with
  | .fin _ => value
  | _ => .fin fallback

/-- The rational carried by a clamped value (`clampFinite` always returns a
finite number, so this is total on its outputs; non-finite values map to 0,
which never occurs after clamping). -/
def JsNum.toQ : JsNum → ℚ
  | .fin q => q
  | _ => 0

/-- JavaScript multiplication `a * r` where `r` is a finite number (the
clamped follow ratio): follows IEEE semantics on the non-finite values. -/
def jsMulFin (a : JsNum) (r : ℚ) : JsNum :=
  match a with
  | .fin q => .fin (q * r)
  | .nan => .nan
  | .inf => if 0 < r then .inf else if r < 0 then .ninf else .nan
  | .ninf => if 0 < r then .ninf else if r < 0 then .inf else .nan

/-- `Math.round` on an exact rational: round half toward positive
infinity. -/
def jsRound (q : ℚ) : ℤ := ⌊q + 1 / 2⌋

/-- Scaling a finite value: `BigInt(Math.round(v * 10_000))`. -/
def toScaledQ (q : ℚ) : ℤ := jsRound (q * 10000)

/-- Embeds `toScaled`: clamp then scale by `10^4`. -/
def toScaled (value : JsNum) : ℤ := toScaledQ (clampFinite value 0).toQ

/-- Embeds `toNumber`: `Number(value) / 10_000` (the `BigInt → Number`
conversion is idealised as exact). -/
def toNumber (value : ℤ) : ℚ := (value : ℚ) / 10000

/-- The fixed-point scale factor `SCALE = 10_000n`. -/
def SCALE : ℤ := 10000

/-- Embeds `mulDiv(a, b, div)`: `(a * b) / div` on `BigInt`, which
truncates toward zero.  `BigInt` division by zero throws a `RangeError`
while `Int.tdiv x 0 = 0` is total; every call site except the fixed-mode
`desiredQtyAbs` is guarded by a positive divisor, and
`completesWithoutThrow` (below) marks the runs on which this total
embedding agrees with the throwing source. -/
def mulDiv (a b d : ℤ) : ℤ := Int.tdiv (a * b) d

/-- Embeds `safeDivNumber`.  In the rational model every value is finite,
so only the `d === 0` test remains visible. -/
def safeDivNumber (n d : ℚ) : ℚ := if d = 0 then 0 else n / d

/-- Trade side. -/
inductive Side where
  | buy
  | sell
deriving DecidableEq

/-- The fields of `DataApiTrade` the engine reads.  (Display-only fields
such as `proxyWallet` or `icon` are never consulted and are omitted.)
Timestamps are integer seconds. -/
structure Trade where
  side : Side
  asset : String
  conditionId : String
  size : JsNum
  price : JsNum
  timestamp : ℤ
  title : Option String := none
  slug : Option String := none
  outcome : Option String := none
  outcomeIndex : Option ℤ := none
deriving DecidableEq

/-- Embeds `marketKey`: `` `${conditionId}:${asset}:${outcomeIndex ?? ''}` ``. -/
def marketKey (t : Trade) : String :=
  t.conditionId ++ ":" ++ t.asset ++ ":" ++
    (match t.outcomeIndex with
     | some i => toString i
     | none => "")

/-- Embeds `isWithinRange` (inclusive bounds, absent bound unbounded). -/
def isWithinRange (ts : ℤ) (startTs endTs : Option ℤ) : Bool :=
  (match startTs with
   | some s => decide (s ≤ ts)
   | none => true) &&
  (match endTs with
   | some e => decide (ts ≤ e)
   | none => true)

/-- Stable insertion step: place `x` before the first element it is
`le`-related to.  With a reflexive total `le` this is the unique stable
order, matching `Array.prototype.sort`. -/
def insertStable {α : Type} (le : α → α → Bool) (x : α) : List α → List α
  | [] => [x]
  | y :: ys => if le x y then x :: y :: ys else y :: insertStable le x ys

/-- Stable sort by `le` (see `insertStable`). -/
def sortStable {α : Type} (le : α → α → Bool) : List α → List α
  | [] => []
  | x :: xs => insertStable le x (sortStable le xs)

/-- Embeds the trade selection of `simulateCopyTrades`: keep trades inside
the window, then sort ascending by timestamp (stably). -/
def normalizedTrades (trades : List Trade) (startTs endTs : Option ℤ) : List Trade :=
  sortStable (fun a b => decide (a.timestamp ≤ b.timestamp))
    (trades.filter (fun t => isWithinRange t.timestamp startTs endTs))

/-- Embeds `CopyTradeSimOptions`; `none` is an absent (`undefined`)
field. -/
structure CopyTradeSimOptions where
  initialCapitalUsd : Option JsNum := none
  followRatio : Option JsNum := none
  followNotionalUsd : Option JsNum := none
  startTs : Option ℤ := none
  endTs : Option ℤ := none
  allowPartialFills : Option Bool := none
deriving DecidableEq

/-- Follow-sizing mode. -/
inductive FollowMode where
  | ratio
  | fixed
deriving DecidableEq

/-- `clampFinite(options?.initialCapitalUsd ?? 10_000, 10_000)`. -/
def resolvedInitialCapitalUsd (o : CopyTradeSimOptions) : ℚ :=
  (clampFinite (o.initialCapitalUsd.getD (.fin 10000)) 10000).toQ

/-- `clampFinite(options?.followRatio ?? 1, 1)`. -/
def resolvedFollowRatio (o : CopyTradeSimOptions) : ℚ :=
  (clampFinite (o.followRatio.getD (.fin 1)) 1).toQ

/-- `clampFinite(options?.followNotionalUsd ?? 0, 0)`. -/
def resolvedFollowNotionalUsd (o : CopyTradeSimOptions) : ℚ :=
  (clampFinite (o.followNotionalUsd.getD (.fin 0)) 0).toQ

/-- `options?.followNotionalUsd === undefined ? 'ratio' : 'fixed'`. -/
def followModeOf (o : CopyTradeSimOptions) : FollowMode :=
  match o.followNotionalUsd with
  | none => .ratio
  | some _ => .fixed

/-- `options?.allowPartialFills ?? true`. -/
def resolvedAllowPartialFills (o : CopyTradeSimOptions) : Bool :=
  o.allowPartialFills.getD true

/-- `followMode === 'fixed' ? toScaled(followNotionalUsd) : 0n`. -/
def fixedNotionalOf (o : CopyTradeSimOptions) : ℤ :=
  match followModeOf o with
  | .fixed => toScaledQ (resolvedFollowNotionalUsd o)
  | .ratio => 0

/-- Embeds `PositionState`. -/
structure PositionState where
  qty : ℤ
  avgPrice : ℤ
  lastPrice : ℤ
  title : Option String
  slug : Option String
  outcome : Option String
deriving DecidableEq

/-- Embeds `CopyTradeRealized` (`side` is always `SELL` in the source). -/
structure CopyTradeRealized where
  ts : ℤ
  key : String
  title : Option String
  slug : Option String
  outcome : Option String
  side : Side
  qty : ℚ
  entryPrice : ℚ
  exitPrice : ℚ
  pnlUsd : ℚ
deriving DecidableEq

/-- Internal (scaled) equity point, as accumulated by the loop. -/
structure EquityEntry where
  ts : ℤ
  equity : ℤ
  cash : ℤ
deriving DecidableEq

/-- Structured counterpart of the skip-reason strings pushed by
`pushSkip` (the source renders them through the timezone-dependent
`formatTs`; the data and the encounter order are preserved here). -/
inductive SkipReason where
  | buyInsufficientFunds (ts : ℤ) (label : String) (needUsd availUsd : ℚ)
  | buyNothingAffordable (ts : ℤ) (label : String) (availUsd : ℚ)
  | sellNoPosition (ts : ℤ) (label : String)
  | sellZeroQty (ts : ℤ) (label : String)
deriving DecidableEq

/-- The `state.title ?? state.slug ?? key` display label used inside skip
reasons. -/
def labelOf (st : PositionState) (key : String) : String :=
  st.title.getD (st.slug.getD key)

/-- The `a ?? b` null-coalescing on optional strings. -/
def coalesce {α : Type} (a b : Option α) : Option α :=
  match a with
  | some v => some v
  | none => b

/-- The mutable state of one replay: cash, the position map, the
mark-to-market map with its running sum, and the output accumulators. -/
structure EngineState where
  cash : ℤ
  positions : List (String × PositionState)
  markedValueByKey : List (String × ℤ)
  markedSum : ℤ
  realized : List CopyTradeRealized
  equity : List EquityEntry
  skippedTradeCount : ℕ
  partialFillCount : ℕ
  skippedTradeReasons : List SkipReason
deriving DecidableEq

/-- `Map.get`. -/
def lookupA {α : Type} : List (String × α) → String → Option α
  | [], _ => none
  | (k2, v) :: rest, k => if k2 = k then some v else lookupA rest k

/-- `Map.set`: update in place, append a new key at the end. -/
def setA {α : Type} : List (String × α) → String → α → List (String × α)
  | [], k, v => [(k, v)]
  | (k2, w) :: rest, k, v =>
      if k2 = k then (k, v) :: rest else (k2, w) :: setA rest k v

/-- Embeds `pushSkip`: record a reason only while fewer than 200 are
stored. -/
def pushSkip (s : EngineState) (r : SkipReason) : EngineState :=
  if 200 ≤ s.skippedTradeReasons.length then s
  else { s with skippedTradeReasons := s.skippedTradeReasons ++ [r] }

/-- Embeds `pushEquity`: append `cash + markedSum` with a cash snapshot. -/
def pushEquity (s : EngineState) (ts : ℤ) : EngineState :=
  { s with equity := s.equity ++ [{ ts := ts, equity := s.cash + s.markedSum, cash := s.cash }] }

/-- The resolved configuration the loop actually consults. -/
structure Params where
  followMode : FollowMode
  followRatio : ℚ
  fixedNotional : ℤ
  allowPartialFills : Bool

/-- Embeds `desiredQtyAbs`: fixed mode converts the budget to shares at
the trade's price, ratio mode scales the source size. -/
def desiredQtyAbs (P : Params) (t : Trade) (price : ℤ) : ℤ :=
  match P.followMode with
  | .fixed => mulDiv P.fixedNotional SCALE price
  | .ratio => toScaled (jsMulFin t.size P.followRatio)

/-- The block the source repeats at the end of every non-dropped trade:
store the position, refresh the mark-to-market value for the key using
`state.lastPrice || state.avgPrice` (BigInt `0n` is falsy), adjust the
running mark sum, and push one equity point. -/
def finishTrade (s : EngineState) (key : String) (st : PositionState) (ts : ℤ) : EngineState :=
  let s1 := { s with positions := setA s.positions key st }
  let prevMarked := (lookupA s1.markedValueByKey key).getD 0
  let nextMarked := mulDiv (if st.lastPrice = 0 then st.avgPrice else st.lastPrice) st.qty SCALE
  let s2 := { s1 with
    markedValueByKey := setA s1.markedValueByKey key nextMarked,
    markedSum := s1.markedSum + (nextMarked - prevMarked) }
  pushEquity s2 ts

/-- One iteration of the replay loop of `simulateCopyTrades`.  The second
component observes the reasons passed to `pushSkip` during this step
(before the 200-entry cap is applied), in order. -/
def stepTrade (P : Params) (s : EngineState) (t : Trade) : EngineState × List SkipReason :=
  let key := marketKey t
  let price := toScaled t.price
  let rawQty := desiredQtyAbs P t price
  if rawQty ≤ 0 ∨ price ≤ 0 then (s, [])
  else
    let state0 := (lookupA s.positions key).getD
      { qty := 0, avgPrice := 0, lastPrice := 0, title := t.title, slug := t.slug,
            outcome := t.outcome }
    let st := { state0 with
      lastPrice := price,
      title := coalesce state0.title t.title,
      slug := coalesce state0.slug t.slug,
      outcome := coalesce state0.outcome t.outcome }
    match t.side with
    | .buy =>
      let qtyAbs := rawQty
      let notional := mulDiv price qtyAbs SCALE
      if s.cash < notional then
        if P.allowPartialFills = false then
          let r := SkipReason.buyInsufficientFunds t.timestamp (labelOf st key)
            (toNumber notional) (toNumber s.cash)
          let s1 := pushSkip { s with skippedTradeCount := s.skippedTradeCount + 1 } r
          (finishTrade s1 key st t.timestamp, [r])
        else
          let maxQtyAbs := mulDiv s.cash SCALE price
          if maxQtyAbs ≤ 0 then
            let r := SkipReason.buyNothingAffordable t.timestamp (labelOf st key)
              (toNumber s.cash)
            let s1 := pushSkip { s with skippedTradeCount := s.skippedTradeCount + 1 } r
            (finishTrade s1 key st t.timestamp, [r])
          else
            let notional2 := s.cash
            let nextQty := st.qty + maxQtyAbs
            let st2 :=
              if 0 < nextQty then
                { st with
                  qty := nextQty,
                  avgPrice :=
                    if st.qty = 0 then price
                    else mulDiv (st.avgPrice * st.qty + price * maxQtyAbs) 1 nextQty }
              else st
            let s1 := { s with
              partialFillCount := s.partialFillCount + 1,
              cash := s.cash - notional2 }
            (finishTrade s1 key st2 t.timestamp, [])
      else
        let nextQty := st.qty + qtyAbs
        let nextAvg :=
          if st.qty = 0 then price
          else mulDiv (st.avgPrice * st.qty + price * qtyAbs) 1 nextQty
        let st2 := { st with qty := nextQty, avgPrice := nextAvg }
        let s1 := { s with cash := s.cash - notional }
        (finishTrade s1 key st2 t.timestamp, [])
    | .sell =>
      if st.qty ≤ 0 then
        let r := SkipReason.sellNoPosition t.timestamp (labelOf st key)
        let s1 := pushSkip { s with skippedTradeCount := s.skippedTradeCount + 1 } r
        (finishTrade s1 key st t.timestamp, [r])
      else
        let qtyAbs := rawQty
        let sellQty := if st.qty < qtyAbs then st.qty else qtyAbs
        if sellQty ≤ 0 then
          let r := SkipReason.sellZeroQty t.timestamp (labelOf st key)
          let s1 := pushSkip { s with skippedTradeCount := s.skippedTradeCount + 1 } r
          (finishTrade s1 key st t.timestamp, [r])
        else
          let s1 :=
            if sellQty ≠ qtyAbs then { s with partialFillCount := s.partialFillCount + 1 }
            else s
          let notional := mulDiv price sellQty SCALE
          let pnl := mulDiv (price - st.avgPrice) sellQty SCALE
          let ev : CopyTradeRealized :=
            { ts := t.timestamp, key := key, title := st.title, slug := st.slug,
              outcome := st.outcome, side := .sell, qty := toNumber sellQty,
              entryPrice := toNumber st.avgPrice, exitPrice := toNumber price,
              pnlUsd := toNumber pnl }
          let st2 := { st with
            qty := st.qty - sellQty,
            avgPrice := if st.qty - sellQty = 0 then 0 else st.avgPrice }
          let s2 := { s1 with cash := s1.cash + notional, realized := s1.realized ++ [ev] }
          (finishTrade s2 key st2 t.timestamp, [])

/-- The replay loop, also accumulating the uncapped skip-reason
sequence. -/
def runTrades (P : Params) (s : EngineState) (acc : List SkipReason) :
    List Trade → EngineState × List SkipReason
  | [] => (s, acc)
  | t :: rest =>
      let r := stepTrade P s t
      runTrades P r.1 (acc ++ r.2) rest

/-- The state before any trade is processed. -/
def initEngineState (initialCapitalScaled : ℤ) : EngineState :=
  { cash := initialCapitalScaled, positions := [], markedValueByKey := [], markedSum := 0,
      realized := [], equity := [], skippedTradeCount := 0, partialFillCount := 0,
      skippedTradeReasons := [] }

/-- The `Params` derived from the options. -/
def paramsOf (o : CopyTradeSimOptions) : Params :=
  { followMode := followModeOf o, followRatio := resolvedFollowRatio o,
      fixedNotional := fixedNotionalOf o,
      allowPartialFills := resolvedAllowPartialFills o }

/-- The whole replay: select, order and fold the trades.  First component:
final state; second: the uncapped skip-reason sequence in encounter
order. -/
def engineRun (trades : List Trade) (o : CopyTradeSimOptions) :
    EngineState × List SkipReason :=
  runTrades (paramsOf o) (initEngineState (toScaledQ (resolvedInitialCapitalUsd o))) []
    (normalizedTrades trades o.startTs o.endTs)

/-- The state after the first `n` selected trades have been replayed. -/
def stateAfter (trades : List Trade) (o : CopyTradeSimOptions) (n : ℕ) : EngineState :=
  (runTrades (paramsOf o) (initEngineState (toScaledQ (resolvedInitialCapitalUsd o))) []
    ((normalizedTrades trades o.startTs o.endTs).take n)).1

/-- The timestamp of the synthesized equity point:
`startTs ?? endTs ?? Math.floor(Date.now() / 1000)`; `now` is the ambient
clock reading. -/
def emptyEquityTs (o : CopyTradeSimOptions) (now : ℤ) : ℤ :=
  o.startTs.getD (o.endTs.getD now)

/-- `if (equity.length === 0) pushEquity(startTs ?? endTs ?? now)`. -/
def finalEquityList (o : CopyTradeSimOptions) (now : ℤ) (s : EngineState) :
    List EquityEntry :=
  match s.equity with
  | [] => (pushEquity s (emptyEquityTs o now)).equity
  | _ => s.equity

/-- Output equity point (`toNumber` applied at the boundary). -/
structure CopyTradeEquityPoint where
  ts : ℤ
  equityUsd : ℚ
  cashUsd : ℚ
deriving DecidableEq

/-- Embeds `CopyTradeMarketPnlRow`. -/
structure CopyTradeMarketPnlRow where
  key : String
  title : Option String
  slug : Option String
  outcome : Option String
  realizedPnlUsd : ℚ
  realizedCount : ℕ
  winCount : ℕ
deriving DecidableEq

/-- Day/night bucket label. -/
inductive DayNightLabel where
  | day
  | night
deriving DecidableEq

/-- Embeds `CopyTradeDayNightStats`. -/
structure CopyTradeDayNightStats where
  label : DayNightLabel
  realizedPnlUsd : ℚ
  realizedCount : ℕ
  winRate : ℚ
deriving DecidableEq

/-- Embeds `CopyTradeHeatmapCell`. -/
structure CopyTradeHeatmapCell where
  day : ℤ
  hour : ℤ
  value : ℚ
deriving DecidableEq

/-- Embeds the `meta` block of `CopyTradeSimResult`. -/
structure ResultMeta where
  initialCapitalUsd : ℚ
  followMode : FollowMode
  followRatio : ℚ
  followNotionalUsd : Option ℚ
  startTs : Option ℤ
  endTs : Option ℤ
  inputTradeCount : ℕ
  usedTradeCount : ℕ
  skippedTradeCount : ℕ
  partialFillCount : ℕ
deriving DecidableEq

/-- Embeds the `summary` block.  `sharpeRatio` of the source equals
`0` when the sample standard deviation is zero and otherwise
`sharpeMean / sqrt sharpeVariance * sqrt sharpeCount`; the triple recorded
here determines it (see the file header). -/
structure ResultSummary where
  finalEquityUsd : ℚ
  pnlUsd : ℚ
  pnlPct : ℚ
  winRate : ℚ
  maxSingleWinUsd : ℚ
  maxSingleLossUsd : ℚ
  maxDrawdownPct : ℚ
  sharpeMean : ℚ
  sharpeVariance : ℚ
  sharpeCount : ℕ
deriving DecidableEq

/-- Embeds `CopyTradeSimResult`. -/
structure CopyTradeSimResult where
  meta : ResultMeta
  summary : ResultSummary
  equity : List CopyTradeEquityPoint
  realized : List CopyTradeRealized
  pnlByMarket : List CopyTradeMarketPnlRow
  dayNight : List CopyTradeDayNightStats
  pnlHeatmap : List CopyTradeHeatmapCell
  skippedTradeReasons : List SkipReason
deriving DecidableEq

/-- Win count over realized events (`pnlUsd > 0`). -/
def winCountOf (rs : List CopyTradeRealized) : ℕ :=
  rs.foldl (fun acc r => if 0 < r.pnlUsd then acc + 1 else acc) 0

/-- `maxWin = Math.max(maxWin, pnl)` folded from 0. -/
def maxWinOf (rs : List CopyTradeRealized) : ℚ :=
  rs.foldl (fun acc r => max acc r.pnlUsd) 0

/-- `maxLoss = Math.min(maxLoss, pnl)` folded from 0. -/
def maxLossOf (rs : List CopyTradeRealized) : ℚ :=
  rs.foldl (fun acc r => min acc r.pnlUsd) 0

/-- The drawdown scan: track the running peak and the largest percentage
decline (`dd > maxDd` updates). -/
def maxDrawdownLoop : List EquityEntry → ℤ → ℚ → ℚ
  | [], _, maxDd => maxDd
  | p :: rest, peak, maxDd =>
      let peak2 := if peak < p.equity then p.equity else peak
      let dd :=
        if peak2 = 0 then 0
        else safeDivNumber (toNumber (peak2 - p.equity)) (toNumber peak2) * 100
      maxDrawdownLoop rest peak2 (if maxDd < dd then dd else maxDd)

/-- Step-over-step returns of the equity series
(`prev === 0 ? 0 : (next - prev) / prev`). -/
def stepReturns : List EquityEntry → List ℚ
  | a :: b :: rest =>
      (if toNumber a.equity = 0 then 0
       else (toNumber b.equity - toNumber a.equity) / toNumber a.equity) ::
        stepReturns (b :: rest)
  | _ => []

/-- Accumulate realized events into per-market rows (insertion-ordered,
exactly as the source's `Map`). -/
def marketRowsOf (rs : List CopyTradeRealized) : List (String × CopyTradeMarketPnlRow) :=
  rs.foldl
    (fun m r =>
      let row := (lookupA m r.key).getD
        { key := r.key, title := r.title, slug := r.slug, outcome := r.outcome,
          realizedPnlUsd := 0, realizedCount := 0, winCount := 0 }
      let row2 :=
        { row with
          realizedPnlUsd := row.realizedPnlUsd + r.pnlUsd,
          realizedCount := row.realizedCount + 1,
          winCount := if 0 < r.pnlUsd then row.winCount + 1 else row.winCount,
          title := coalesce row.title r.title,
          slug := coalesce row.slug r.slug,
          outcome := coalesce row.outcome r.outcome }
      setA m r.key row2)
    []

/-- Local hour of a timestamp under the fixed timezone offset `tz`
(models `new Date(ts * 1000).getHours()`). -/
def jsHour (ts tz : ℤ) : ℤ := ((ts + tz) / 3600) % 24

/-- Local day-of-week (0 = Sunday; the epoch was a Thursday, day 4;
models `new Date(ts * 1000).getDay()`). -/
def jsDay (ts tz : ℤ) : ℤ := ((ts + tz) / 86400 + 4) % 7

/-- `hour >= 8 && hour < 20 ? 'day' : 'night'`. -/
def dayNightLabelOf (ts tz : ℤ) : DayNightLabel :=
  if 8 ≤ jsHour ts tz ∧ jsHour ts tz < 20 then .day else .night

/-- One day/night accumulator. -/
structure DayNightBucket where
  pnl : ℚ
  count : ℕ
  wins : ℕ

/-- Accumulate the realized events belonging to one bucket label (the
source fills both buckets in a single pass; per-label accumulation of the
same events in the same order yields the same exact sums). -/
def bucketFold (tz : ℤ) (rs : List CopyTradeRealized) (lab : DayNightLabel) :
    DayNightBucket :=
  rs.foldl
    (fun (b : DayNightBucket) r =>
      if dayNightLabelOf r.ts tz = lab then
        { pnl := b.pnl + r.pnlUsd, count := b.count + 1,
          wins := if (0 : ℚ) < r.pnlUsd then b.wins + 1 else b.wins }
      else b)
    { pnl := 0, count := 0, wins := 0 }

/-- The two day/night rows. -/
def dayNightOf (tz : ℤ) (rs : List CopyTradeRealized) : List CopyTradeDayNightStats :=
  [DayNightLabel.day, DayNightLabel.night].map fun lab =>
    let b := bucketFold tz rs lab
    { label := lab, realizedPnlUsd := b.pnl, realizedCount := b.count,
      winRate := if b.count = 0 then 0 else (b.wins : ℚ) / (b.count : ℚ) }

/-- Value of one heatmap cell (the source accumulates each event into its
`(day, hour)` cell of a zero grid; per-cell accumulation of the same
events in the same order yields the same exact sums). -/
def heatValue (tz : ℤ) (rs : List CopyTradeRealized) (day hour : ℤ) : ℚ :=
  rs.foldl
    (fun acc r => if jsDay r.ts tz = day ∧ jsHour r.ts tz = hour then acc + r.pnlUsd else acc)
    0

/-- The 7×24 heatmap cells, day-major as emitted by the source. -/
def pnlHeatmapOf (tz : ℤ) (rs : List CopyTradeRealized) : List CopyTradeHeatmapCell :=
  (List.range 7).flatMap fun day =>
    (List.range 24).map fun hour =>
      { day := (day : ℤ), hour := (hour : ℤ), value := heatValue tz rs (day : ℤ) (hour : ℤ) }

/-- Everything `simulateCopyTrades` computes after the replay loop,
assembled from the final engine state and the final equity list. -/
def assembleResult (trades : List Trade) (o : CopyTradeSimOptions) (tz : ℤ)
    (s : EngineState) (finalEq : List EquityEntry) : CopyTradeSimResult :=
  let initialScaled := toScaledQ (resolvedInitialCapitalUsd o)
  let finalScaled := ((finalEq.getLast?).map (fun p => p.equity)).getD initialScaled
  let pnlScaled := finalScaled - initialScaled
  let rs := s.realized
  let pnlUsdVal := toNumber pnlScaled
  let pnlPctVal := safeDivNumber pnlUsdVal (resolvedInitialCapitalUsd o) * 100
  let peak0 := ((finalEq.head?).map (fun p => p.equity)).getD initialScaled
  let maxDd := maxDrawdownLoop finalEq peak0 0
  let returns := stepReturns finalEq
  let mean := if returns.length = 0 then 0 else returns.sum / (returns.length : ℚ)
  let variance :=
    if 1 < returns.length then
      ((returns.map (fun r => (r - mean) * (r - mean))).sum) / ((returns.length : ℚ) - 1)
    else 0
  { meta :=
      { initialCapitalUsd := resolvedInitialCapitalUsd o,
        followMode := followModeOf o,
        followRatio := resolvedFollowRatio o,
        followNotionalUsd :=
          match followModeOf o with
          | .fixed => some (resolvedFollowNotionalUsd o)
          | .ratio => none,
        startTs := o.startTs,
        endTs := o.endTs,
        inputTradeCount := trades.length,
        usedTradeCount := (normalizedTrades trades o.startTs o.endTs).length,
        skippedTradeCount := s.skippedTradeCount,
        partialFillCount := s.partialFillCount },
    summary :=
      { finalEquityUsd := toNumber finalScaled,
        pnlUsd := pnlUsdVal,
        pnlPct := pnlPctVal,
        winRate := if rs.length = 0 then 0 else (winCountOf rs : ℚ) / (rs.length : ℚ),
        maxSingleWinUsd := maxWinOf rs,
        maxSingleLossUsd := maxLossOf rs,
        maxDrawdownPct := maxDd,
        sharpeMean := mean,
        sharpeVariance := variance,
        sharpeCount := returns.length },
    equity := finalEq.map fun p =>
      { ts := p.ts, equityUsd := toNumber p.equity, cashUsd := toNumber p.cash },
    realized := rs,
    pnlByMarket :=
      sortStable (fun a b => decide (b.realizedPnlUsd ≤ a.realizedPnlUsd))
        ((marketRowsOf rs).map (fun e => e.2)),
    dayNight := dayNightOf tz rs,
    pnlHeatmap := pnlHeatmapOf tz rs,
    skippedTradeReasons := s.skippedTradeReasons }

/-- Embeds `simulateCopyTrades`.  `now` is the ambient clock (seconds) and
`tz` the host timezone offset (seconds east of UTC); see the file
header. -/
def simulateCopyTrades (trades : List Trade) (o : CopyTradeSimOptions) (now tz : ℤ) :
    CopyTradeSimResult :=
  let run := engineRun trades o
  assembleResult trades o tz run.1 (finalEquityList o now run.1)

/-- The positivity guard of the loop: a selected trade reaches the
execution branches only when its scaled desired quantity and scaled price
are both positive (`if (rawQty <= 0n || price <= 0n) continue`). -/
def passesGuard (P : Params) (t : Trade) : Bool :=
  !(decide (desiredQtyAbs P t (toScaled t.price) ≤ 0) || decide (toScaled t.price ≤ 0))

/-- The runs on which the total state machine agrees with the source.
In fixed mode the source evaluates `desiredQtyAbs` =
`mulDiv(fixedNotional, SCALE, price)` *before* the positivity guard, and
JavaScript `BigInt` division by zero throws an uncaught `RangeError`:
any selected trade whose scaled price is `0n` aborts the whole replay
with no result.  `Int.tdiv` is total, so the embedding silently drops
such a trade instead; this predicate singles out the runs where the
source completes without throwing and the two semantics coincide.
Ratio mode performs no division before the guard and never throws. -/
def completesWithoutThrow (trades : List Trade) (o : CopyTradeSimOptions) : Prop :=
  followModeOf o = .ratio ∨
    ∀ t ∈ normalizedTrades trades o.startTs o.endTs, toScaled t.price ≠ 0

/-- Sum of the values of a `String`-keyed association list. -/
def sumVals (m : List (String × ℤ)) : ℤ := (m.map (fun e => e.2)).sum

/-- The mark-to-market value the source stores for a position:
`mulDiv(state.lastPrice || state.avgPrice, state.qty, SCALE)`. -/
def markVal (ps : PositionState) : ℤ :=
  mulDiv (if ps.lastPrice = 0 then ps.avgPrice else ps.lastPrice) ps.qty SCALE

/-- The position map rendered as the mark-to-market map. -/
def mapMarked (m : List (String × PositionState)) : List (String × ℤ) :=
  m.map (fun e => (e.1, markVal e.2))

/-- The full recomputation of the portfolio-wide mark sum from the
position map: held quantity times last-observed price, each product in
scaled integers. -/
def recomputedMarkSum (positions : List (String × PositionState)) : ℤ :=
  (positions.map (fun e => mulDiv e.2.qty e.2.lastPrice SCALE)).sum

/-- A concrete trade fixture used by witnesses and counterexamples. -/
def simpleTrade (sd : Side) (pr sz : ℚ) (ts : ℤ) : Trade :=
  { side := sd, asset := "a", conditionId := "c", size := .fin sz, price := .fin pr,
    timestamp := ts }

/-! ### Helper lemmas -/

theorem tdiv_of_nonneg (a b : ℤ) (ha : 0 ≤ a) (hb : 0 ≤ b) : Int.tdiv a b = a / b :=
  Int.tdiv_eq_ediv ha hb

theorem tdiv_of_nonpos (a b : ℤ) (ha : a ≤ 0) (hb : 0 ≤ b) : Int.tdiv a b = -(-a / b) := by
  rw [← Int.tdiv_eq_ediv (by omega : (0 : ℤ) ≤ -a) hb, ← Int.neg_tdiv, neg_neg]

theorem tdiv_nonpos_of_nonpos_of_nonneg {a b : ℤ} (ha : a ≤ 0) (hb : 0 ≤ b) :
    Int.tdiv a b ≤ 0 := by
  have h := Int.tdiv_nonneg (by omega : (0 : ℤ) ≤ -a) hb
  rw [Int.neg_tdiv] at h
  omega

theorem lookupA_mem {α : Type} {m : List (String × α)} {k : String} {v : α}
    (h : lookupA m k = some v) : (k, v) ∈ m := by
  induction m with
  | nil => simp [lookupA] at h
  | cons e rest ih =>
      obtain ⟨k2, w⟩ := e
      rw [lookupA] at h
      by_cases hk : k2 = k
      · rw [if_pos hk] at h
        injection h with hv
        subst hv
        subst hk
        exact List.mem_cons_self _ _
      · rw [if_neg hk] at h
        exact List.mem_cons_of_mem _ (ih h)

theorem mem_setA {α : Type} {m : List (String × α)} {k : String} {v : α} {e : String × α}
    (h : e ∈ setA m k v) : e = (k, v) ∨ e ∈ m := by
  induction m with
  | nil => simp [setA] at h; simp [h]
  | cons f rest ih =>
      obtain ⟨k2, w⟩ := f
      rw [setA] at h
      by_cases hk : k2 = k
      · rw [if_pos hk] at h
        rcases List.mem_cons.1 h with h1 | h2
        · exact Or.inl h1
        · exact Or.inr (List.mem_cons_of_mem _ h2)
      · rw [if_neg hk] at h
        rcases List.mem_cons.1 h with h1 | h2
        · exact Or.inr (h1 ▸ List.mem_cons_self _ _)
        · rcases ih h2 with h3 | h4
          · exact Or.inl h3
          · exact Or.inr (List.mem_cons_of_mem _ h4)

theorem sumVals_setA (m : List (String × ℤ)) (k : String) (v : ℤ) :
    sumVals (setA m k v) = sumVals m + v - (lookupA m k).getD 0 := by
  induction m with
  | nil => simp [setA, sumVals, lookupA]
  | cons f rest ih =>
      obtain ⟨k2, w⟩ := f
      rw [setA, lookupA]
      by_cases hk : k2 = k
      · rw [if_pos hk, if_pos hk]
        simp [sumVals]
        ring
      · rw [if_neg hk, if_neg hk]
        simp only [sumVals, List.map_cons, List.sum_cons] at ih ⊢
        omega

theorem setA_mapMarked (m : List (String × PositionState)) (k : String) (st : PositionState) :
    setA (mapMarked m) k (markVal st) = mapMarked (setA m k st) := by
  induction m with
  | nil => simp [setA, mapMarked]
  | cons f rest ih =>
      obtain ⟨k2, w⟩ := f
      simp only [mapMarked, List.map_cons, setA]
      by_cases hk : k2 = k
      · rw [if_pos hk, if_pos hk]
        simp [mapMarked]
      · rw [if_neg hk, if_neg hk]
        simp only [List.map_cons, mapMarked] at ih ⊢
        rw [ih]

theorem finishTrade_cash (s : EngineState) (key : String) (st : PositionState) (ts : ℤ) :
    (finishTrade s key st ts).cash = s.cash := rfl

theorem finishTrade_positions (s : EngineState) (key : String) (st : PositionState) (ts : ℤ) :
    (finishTrade s key st ts).positions = setA s.positions key st := rfl

theorem finishTrade_marked (s : EngineState) (key : String) (st : PositionState) (ts : ℤ) :
    (finishTrade s key st ts).markedValueByKey = setA s.markedValueByKey key (markVal st) := rfl

theorem finishTrade_markedSum (s : EngineState) (key : String) (st : PositionState) (ts : ℤ) :
    (finishTrade s key st ts).markedSum =
      s.markedSum + (markVal st - (lookupA s.markedValueByKey key).getD 0) := rfl

theorem finishTrade_realized (s : EngineState) (key : String) (st : PositionState) (ts : ℤ) :
    (finishTrade s key st ts).realized = s.realized := rfl

theorem finishTrade_skippedTradeCount (s : EngineState) (key : String) (st : PositionState)
    (ts : ℤ) : (finishTrade s key st ts).skippedTradeCount = s.skippedTradeCount := rfl

theorem finishTrade_partialFillCount (s : EngineState) (key : String) (st : PositionState)
    (ts : ℤ) : (finishTrade s key st ts).partialFillCount = s.partialFillCount := rfl

theorem finishTrade_skippedTradeReasons (s : EngineState) (key : String) (st : PositionState)
    (ts : ℤ) : (finishTrade s key st ts).skippedTradeReasons = s.skippedTradeReasons := rfl

theorem finishTrade_equity (s : EngineState) (key : String) (st : PositionState) (ts : ℤ) :
    (finishTrade s key st ts).equity =
      s.equity ++
        [{ ts := ts,
           equity := (finishTrade s key st ts).cash + (finishTrade s key st ts).markedSum,
           cash := (finishTrade s key st ts).cash }] := rfl

theorem pushSkip_cash (s : EngineState) (r : SkipReason) : (pushSkip s r).cash = s.cash := by
  rw [pushSkip]; split <;> rfl

theorem pushSkip_positions (s : EngineState) (r : SkipReason) :
    (pushSkip s r).positions = s.positions := by
  rw [pushSkip]; split <;> rfl

theorem pushSkip_marked (s : EngineState) (r : SkipReason) :
    (pushSkip s r).markedValueByKey = s.markedValueByKey := by
  rw [pushSkip]; split <;> rfl

theorem pushSkip_markedSum (s : EngineState) (r : SkipReason) :
    (pushSkip s r).markedSum = s.markedSum := by
  rw [pushSkip]; split <;> rfl

theorem pushSkip_realized (s : EngineState) (r : SkipReason) :
    (pushSkip s r).realized = s.realized := by
  rw [pushSkip]; split <;> rfl

theorem pushSkip_equity (s : EngineState) (r : SkipReason) :
    (pushSkip s r).equity = s.equity := by
  rw [pushSkip]; split <;> rfl

theorem pushSkip_skippedTradeCount (s : EngineState) (r : SkipReason) :
    (pushSkip s r).skippedTradeCount = s.skippedTradeCount := by
  rw [pushSkip]; split <;> rfl

theorem pushSkip_partialFillCount (s : EngineState) (r : SkipReason) :
    (pushSkip s r).partialFillCount = s.partialFillCount := by
  rw [pushSkip]; split <;> rfl

theorem runTrades_inv {P : Params} (Inv : EngineState → Prop)
    (hstep : ∀ s t, Inv s → Inv (stepTrade P s t).1) :
    ∀ (l : List Trade) (s : EngineState) (acc : List SkipReason),
      Inv s → Inv (runTrades P s acc l).1 := by
  intro l
  induction l with
  | nil => intro s acc h; exact h
  | cons t rest ih => intro s acc h; exact ih _ _ (hstep s t h)

theorem runTrades_append (P : Params) (l1 l2 : List Trade) (s : EngineState)
    (acc : List SkipReason) :
    runTrades P s acc (l1 ++ l2) =
      runTrades P (runTrades P s acc l1).1 (runTrades P s acc l1).2 l2 := by
  induction l1 generalizing s acc with
  | nil => rfl
  | cons t rest ih =>
      rw [List.cons_append, runTrades, runTrades]
      exact ih _ _

/-- The invariant of claim C1: non-negative cash and non-negative held
quantity in every position. -/
def NonnegState (s : EngineState) : Prop :=
  0 ≤ s.cash ∧ ∀ e ∈ s.positions, 0 ≤ e.2.qty

theorem finishTrade_nonneg {s : EngineState} {key : String} {st : PositionState} {ts : ℤ}
    (hc : 0 ≤ s.cash) (hq : ∀ e ∈ s.positions, 0 ≤ e.2.qty) (hst : 0 ≤ st.qty) :
    NonnegState (finishTrade s key st ts) := by
  constructor
  · rw [finishTrade_cash]; exact hc
  · intro e he
    rw [finishTrade_positions] at he
    rcases mem_setA he with h1 | h2
    · rw [h1]; exact hst
    · exact hq e h2

theorem qty_getD_nonneg {s : EngineState} (hq : ∀ e ∈ s.positions, 0 ≤ e.2.qty)
    (key : String) (d : PositionState) (hd : 0 ≤ d.qty) :
    0 ≤ ((lookupA s.positions key).getD d).qty := by
  cases hl : lookupA s.positions key with
  | none => simpa using hd
  | some ps => simpa using hq _ (lookupA_mem hl)

theorem stepTrade_nonneg (P : Params) (s : EngineState) (t : Trade)
    (h : NonnegState s) : NonnegState (stepTrade P s t).1 := by
  obtain ⟨hc, hq⟩ := h
  have hq0 : 0 ≤ ((lookupA s.positions (marketKey t)).getD
      { qty := 0, avgPrice := 0, lastPrice := 0, title := t.title, slug := t.slug,
            outcome := t.outcome }).qty :=
    qty_getD_nonneg hq _ _ le_rfl
  simp only [stepTrade]
  split
  · exact ⟨hc, hq⟩
  · rename_i hguard
    rw [not_or, not_le, not_le] at hguard
    obtain ⟨hraw, hprice⟩ := hguard
    have hmul : ∀ x : ℤ, 0 ≤ x → 0 ≤ mulDiv (toScaled t.price) x SCALE := fun x hx =>
      Int.tdiv_nonneg (mul_nonneg (le_of_lt hprice) hx) (by norm_num [SCALE])
    split <;>
      split_ifs <;>
        (refine finishTrade_nonneg ?_ ?_ ?_ <;>
          simp only [pushSkip_cash, pushSkip_positions]) <;>
        first
          | omega
          | exact hq
          | exact hq0
          | exact add_nonneg hc (hmul _ (by omega))

/-- The mark-to-market bookkeeping invariant behind claim C6: the marked
map mirrors the position map, the running sum equals the map's sum, and
every stored position has a non-zero last-observed price. -/
def MarkedInv (s : EngineState) : Prop :=
  s.markedValueByKey = mapMarked s.positions ∧
  s.markedSum = sumVals s.markedValueByKey ∧
  ∀ e ∈ s.positions, e.2.lastPrice ≠ 0

theorem finishTrade_markedInv {s : EngineState} {key : String} {st : PositionState} {ts : ℤ}
    (hmap : s.markedValueByKey = mapMarked s.positions)
    (hsum : s.markedSum = sumVals s.markedValueByKey)
    (hlp : ∀ e ∈ s.positions, e.2.lastPrice ≠ 0)
    (hlast : st.lastPrice ≠ 0) :
    MarkedInv (finishTrade s key st ts) := by
  refine ⟨?_, ?_, ?_⟩
  · rw [finishTrade_marked, finishTrade_positions, hmap, setA_mapMarked]
  · rw [finishTrade_markedSum, finishTrade_marked, sumVals_setA, hsum]
    ring
  · intro e he
    rw [finishTrade_positions] at he
    rcases mem_setA he with h1 | h2
    · rw [h1]; exact hlast
    · exact hlp e h2

theorem stepTrade_markedInv (P : Params) (s : EngineState) (t : Trade)
    (h : MarkedInv s) : MarkedInv (stepTrade P s t).1 := by
  obtain ⟨hmap, hsum, hlp⟩ := h
  simp only [stepTrade]
  split
  · exact ⟨hmap, hsum, hlp⟩
  · rename_i hguard
    rw [not_or, not_le, not_le] at hguard
    obtain ⟨hraw, hprice⟩ := hguard
    split <;>
      split_ifs <;>
        (refine finishTrade_markedInv ?_ ?_ ?_ ?_ <;>
          simp only [pushSkip_marked, pushSkip_positions, pushSkip_markedSum]) <;>
        first
          | exact hmap
          | exact hsum
          | exact hlp
          | omega

theorem stepTrade_equity_snoc (P : Params) (s : EngineState) (t : Trade) :
    (stepTrade P s t).1 = s ∨
    (stepTrade P s t).1.equity = s.equity ++
      [{ ts := t.timestamp,
         equity := (stepTrade P s t).1.cash + (stepTrade P s t).1.markedSum,
         cash := (stepTrade P s t).1.cash }] := by
  simp only [stepTrade]
  split
  · exact Or.inl rfl
  · right
    split <;> split_ifs <;>
      simp [finishTrade_equity, finishTrade_cash, finishTrade_markedSum, pushSkip_equity,
        pushSkip_cash, pushSkip_markedSum]

theorem stepTrade_of_guard_false (P : Params) (s : EngineState) (t : Trade)
    (hg : passesGuard P t = false) : stepTrade P s t = (s, []) := by
  have hcond : desiredQtyAbs P t (toScaled t.price) ≤ 0 ∨ toScaled t.price ≤ 0 := by
    rcases Decidable.em
        (desiredQtyAbs P t (toScaled t.price) ≤ 0 ∨ toScaled t.price ≤ 0) with hy | hn
    · exact hy
    · rw [passesGuard] at hg
      rw [not_or] at hn
      simp [hn.1, hn.2] at hg
  simp only [stepTrade]
  rw [if_pos hcond]

theorem stepTrade_equity_len_of_guard_true (P : Params) (s : EngineState) (t : Trade)
    (hg : passesGuard P t = true) :
    (stepTrade P s t).1.equity.length = s.equity.length + 1 := by
  have hcond : ¬(desiredQtyAbs P t (toScaled t.price) ≤ 0 ∨ toScaled t.price ≤ 0) := by
    intro hy
    rw [passesGuard] at hg
    rcases hy with h | h <;> simp [h] at hg
  simp only [stepTrade]
  rw [if_neg hcond]
  split <;> split_ifs <;>
    simp [finishTrade_equity, pushSkip_equity]

theorem pushSkip_reasons (s : EngineState) (r : SkipReason) :
    (pushSkip s r).skippedTradeReasons =
      if 200 ≤ s.skippedTradeReasons.length then s.skippedTradeReasons
      else s.skippedTradeReasons ++ [r] := by
  rw [pushSkip]
  split <;> rfl

theorem stepTrade_skips (P : Params) (s : EngineState) (t : Trade) :
    ((stepTrade P s t).2 = [] ∧
      (stepTrade P s t).1.skippedTradeReasons = s.skippedTradeReasons ∧
      (stepTrade P s t).1.skippedTradeCount = s.skippedTradeCount) ∨
    ∃ r, (stepTrade P s t).2 = [r] ∧
      (stepTrade P s t).1.skippedTradeReasons =
        (if 200 ≤ s.skippedTradeReasons.length then s.skippedTradeReasons
         else s.skippedTradeReasons ++ [r]) ∧
      (stepTrade P s t).1.skippedTradeCount = s.skippedTradeCount + 1 := by
  simp only [stepTrade]
  split
  · exact Or.inl ⟨rfl, rfl, rfl⟩
  · split <;> split_ifs <;>
      first
        | exact Or.inl ⟨rfl, rfl, rfl⟩
        | (refine Or.inr ⟨_, rfl, ?_, ?_⟩ <;>
            simp_all [finishTrade_skippedTradeReasons, finishTrade_skippedTradeCount,
              pushSkip_reasons, pushSkip_skippedTradeCount])

theorem stateAfter_zero (trades : List Trade) (o : CopyTradeSimOptions) :
    stateAfter trades o 0 = initEngineState (toScaledQ (resolvedInitialCapitalUsd o)) := rfl

theorem stateAfter_succ_of_getElem (trades : List Trade) (o : CopyTradeSimOptions) (n : ℕ)
    (x : Trade) (hx : (normalizedTrades trades o.startTs o.endTs)[n]? = some x) :
    stateAfter trades o (n + 1) = (stepTrade (paramsOf o) (stateAfter trades o n) x).1 := by
  rw [stateAfter, stateAfter, List.take_succ, hx, runTrades_append]
  rfl

theorem stateAfter_succ_of_len_le (trades : List Trade) (o : CopyTradeSimOptions) (n : ℕ)
    (h : (normalizedTrades trades o.startTs o.endTs).length ≤ n) :
    stateAfter trades o (n + 1) = stateAfter trades o n := by
  rw [stateAfter, stateAfter, List.take_of_length_le h, List.take_of_length_le (by omega)]

theorem engineRun_fst_eq_stateAfter (trades : List Trade) (o : CopyTradeSimOptions) :
    (engineRun trades o).1 =
      stateAfter trades o (normalizedTrades trades o.startTs o.endTs).length := by
  rw [engineRun, stateAfter, List.take_length]

theorem stepTrade_of_fixed_nonpos (P : Params) (s : EngineState) (t : Trade)
    (hm : P.followMode = .fixed) (hf : P.fixedNotional ≤ 0) : stepTrade P s t = (s, []) := by
  apply stepTrade_of_guard_false
  rw [passesGuard]
  by_cases hp : toScaled t.price ≤ 0
  · simp [hp]
  · have hd : desiredQtyAbs P t (toScaled t.price) ≤ 0 := by
      simp only [desiredQtyAbs, hm, mulDiv]
      exact tdiv_nonpos_of_nonpos_of_nonneg
        (mul_nonpos_iff.mpr (Or.inr ⟨hf, by norm_num [SCALE]⟩)) (by omega)
    simp [hd]

theorem runTrades_of_fixed_nonpos (P : Params) (hm : P.followMode = .fixed)
    (hf : P.fixedNotional ≤ 0) :
    ∀ (l : List Trade) (s : EngineState) (acc : List SkipReason),
      runTrades P s acc l = (s, acc) := by
  intro l
  induction l with
  | nil => intro s acc; rfl
  | cons t rest ih =>
      intro s acc
      rw [runTrades, stepTrade_of_fixed_nonpos P s t hm hf]
      simpa using ih s acc

theorem runTrades_skips (P : Params) :
    ∀ (l : List Trade) (s : EngineState) (acc : List SkipReason),
      s.skippedTradeReasons = acc.take 200 → s.skippedTradeCount = acc.length →
      (runTrades P s acc l).1.skippedTradeReasons = (runTrades P s acc l).2.take 200 ∧
      (runTrades P s acc l).1.skippedTradeCount = (runTrades P s acc l).2.length := by
  intro l
  induction l with
  | nil => intro s acc h1 h2; exact ⟨h1, h2⟩
  | cons t rest ih =>
      intro s acc h1 h2
      rw [runTrades]
      rcases stepTrade_skips P s t with ⟨hemp, hr, hcnt⟩ | ⟨r, hemp, hr, hcnt⟩
      · refine ih _ _ ?_ ?_
        · rw [hr, h1, hemp]
          simp
        · rw [hcnt, h2, hemp]
          simp
      · refine ih _ _ ?_ ?_
        · rw [hr, h1, hemp]
          by_cases hlen : 200 ≤ acc.length
          · rw [if_pos (by simp [List.length_take]; omega),
              List.take_append_of_le_length hlen]
          · rw [if_neg (by simp [List.length_take]; omega),
              List.take_append_eq_append_take,
              List.take_of_length_le (by omega : acc.length ≤ 200),
              List.take_of_length_le (by simp; omega)]
        · rw [hcnt, h2, hemp]
          simp

theorem mulDiv_zero_left (b d : ℤ) : mulDiv 0 b d = 0 := by
  rw [mulDiv, zero_mul]
  exact Int.zero_tdiv d

theorem mulDiv_zero_mid (a d : ℤ) : mulDiv a 0 d = 0 := by
  rw [mulDiv, mul_zero]
  exact Int.zero_tdiv d

theorem toScaledQ_nonneg {q : ℚ} (hq : 0 ≤ q) : 0 ≤ toScaledQ q := by
  rw [toScaledQ, jsRound]
  refine Int.le_floor.mpr ?_
  have h1 : (0 : ℚ) ≤ q * 10000 := mul_nonneg hq (by norm_num)
  push_cast
  linarith

/-! ### Claim theorems -/

/-- Claim C5 (confirmed): Scenario B.  With initial capital 10, partial
fills allowed and ratio mode with ratio 1, replaying BUY price 0.4 size
100 at ts 1 then SELL price 0.5 size 100 at ts 2 buys the affordable 25
units spending all cash, then sells all 25 at 0.5: realized P&L 2.5,
final equity 12.5, exactly two partial fills, zero skipped trades.
(The asserted fields do not depend on the clock or timezone parameters;
they are instantiated with 0.) -/
theorem c5_scenario_b :
    (simulateCopyTrades [simpleTrade .buy (2/5) 100 1, simpleTrade .sell (1/2) 100 2]
        { initialCapitalUsd := some (.fin 10), followRatio := some (.fin 1),
          allowPartialFills := some true } 0 0).realized.map
        (fun e => (e.qty, e.pnlUsd)) = [(25, 5/2)] ∧
    (simulateCopyTrades [simpleTrade .buy (2/5) 100 1, simpleTrade .sell (1/2) 100 2]
        { initialCapitalUsd := some (.fin 10), followRatio := some (.fin 1),
          allowPartialFills := some true } 0 0).summary.finalEquityUsd = 25/2 ∧
    (simulateCopyTrades [simpleTrade .buy (2/5) 100 1, simpleTrade .sell (1/2) 100 2]
        { initialCapitalUsd := some (.fin 10), followRatio := some (.fin 1),
          allowPartialFills := some true } 0 0).meta.partialFillCount = 2 ∧
    (simulateCopyTrades [simpleTrade .buy (2/5) 100 1, simpleTrade .sell (1/2) 100 2]
        { initialCapitalUsd := some (.fin 10), followRatio := some (.fin 1),
          allowPartialFills := some true } 0 0).meta.skippedTradeCount = 0 := by
  refine ⟨?_, ?_, ?_, ?_⟩ <;>
    norm_num [simulateCopyTrades, engineRun, assembleResult, finalEquityList, emptyEquityTs,
      normalizedTrades, sortStable, insertStable, isWithinRange, paramsOf, followModeOf,
      resolvedFollowRatio, resolvedInitialCapitalUsd, resolvedFollowNotionalUsd,
      resolvedAllowPartialFills, fixedNotionalOf, initEngineState, runTrades, stepTrade,
      finishTrade, pushEquity, pushSkip, desiredQtyAbs, toScaled, toScaledQ, jsRound,
      clampFinite, JsNum.toQ, jsMulFin, mulDiv, SCALE, toNumber, marketKey, lookupA, setA,
      labelOf, coalesce, simpleTrade, tdiv_of_nonneg, tdiv_of_nonpos]

/-- Claim C4 (code bug): Scenario E.  The repository's own unit test
(`copyTradeSim.test.ts`, fixed-notional case) expects overall P&L 20 and
final equity 1020 on BUY price 0.5 size 9999 then SELL price 0.6 size
9999 with initial capital 1000 and a fixed 100-dollar budget, matching
the spec's Scenario E.  The code instead derives the SELL quantity from
the 100-dollar budget at the SELL price 0.6 (166.6666 shares, not the
200-share position), realizing only 16.6666 and ending at 1019.9999;
this theorem evaluates the code at that failing input. -/
theorem c4_scenario_e_code_divergence :
    (simulateCopyTrades [simpleTrade .buy (1/2) 9999 1, simpleTrade .sell (3/5) 9999 2]
        { initialCapitalUsd := some (.fin 1000), followNotionalUsd := some (.fin 100),
          allowPartialFills := some true } 0 0).realized.map
        (fun e => e.pnlUsd) = [83333/5000] ∧
    (simulateCopyTrades [simpleTrade .buy (1/2) 9999 1, simpleTrade .sell (3/5) 9999 2]
        { initialCapitalUsd := some (.fin 1000), followNotionalUsd := some (.fin 100),
          allowPartialFills := some true } 0 0).summary.finalEquityUsd = 10199999/10000 ∧
    (simulateCopyTrades [simpleTrade .buy (1/2) 9999 1, simpleTrade .sell (3/5) 9999 2]
        { initialCapitalUsd := some (.fin 1000), followNotionalUsd := some (.fin 100),
          allowPartialFills := some true } 0 0).summary.pnlUsd = 199999/10000 ∧
    ¬((simulateCopyTrades [simpleTrade .buy (1/2) 9999 1, simpleTrade .sell (3/5) 9999 2]
        { initialCapitalUsd := some (.fin 1000), followNotionalUsd := some (.fin 100),
          allowPartialFills := some true } 0 0).summary.finalEquityUsd = 1020) := by
  refine ⟨?_, ?_, ?_, ?_⟩ <;>
    norm_num [simulateCopyTrades, engineRun, assembleResult, finalEquityList, emptyEquityTs,
      normalizedTrades, sortStable, insertStable, isWithinRange, paramsOf, followModeOf,
      resolvedFollowRatio, resolvedInitialCapitalUsd, resolvedFollowNotionalUsd,
      resolvedAllowPartialFills, fixedNotionalOf, initEngineState, runTrades, stepTrade,
      finishTrade, pushEquity, pushSkip, desiredQtyAbs, toScaled, toScaledQ, jsRound,
      clampFinite, JsNum.toQ, jsMulFin, mulDiv, SCALE, toNumber, marketKey, lookupA, setA,
      labelOf, coalesce, simpleTrade, tdiv_of_nonneg, tdiv_of_nonpos]

/-- Claim C1, counterexample: with a configuration whose initial capital
is the finite negative value -1 (which `clampFinite` passes through), the
replay starts and stays cash-negative: after processing one BUY trade the
portfolio cash is -10000 in scaled units, i.e. negative — refuting "for
every configuration, cash ≥ 0 at every step". -/
theorem c1_negative_capital_counterexample :
    (stateAfter [simpleTrade .buy (1/2) 1 0]
        { initialCapitalUsd := some (.fin (-1)) } 1).cash = -10000 ∧
    ¬(0 ≤ (stateAfter [simpleTrade .buy (1/2) 1 0]
        { initialCapitalUsd := some (.fin (-1)) } 1).cash) := by
  have h : (stateAfter [simpleTrade .buy (1/2) 1 0]
      { initialCapitalUsd := some (.fin (-1)) } 1).cash = -10000 := by
    norm_num [stateAfter, normalizedTrades, sortStable, insertStable, isWithinRange,
      paramsOf, followModeOf, resolvedFollowRatio, resolvedInitialCapitalUsd,
      resolvedFollowNotionalUsd, resolvedAllowPartialFills, fixedNotionalOf,
      initEngineState, runTrades, stepTrade, finishTrade, pushEquity, pushSkip,
      desiredQtyAbs, toScaled, toScaledQ, jsRound, clampFinite, JsNum.toQ, jsMulFin,
      mulDiv, SCALE, toNumber, marketKey, lookupA, setA, labelOf, coalesce, simpleTrade,
      tdiv_of_nonneg, tdiv_of_nonpos]
  exact ⟨h, by rw [h]; norm_num⟩

/-- Claim C2, counterexample: with an empty trade list and neither
`startTs` nor `endTs` supplied, the synthesized equity point is stamped
with `Date.now()`, so two invocations with identical `(trades, config)`
but different ambient clock readings (0 and 1) produce different
results. -/
theorem c2_clock_counterexample :
    simulateCopyTrades [] {} 0 0 ≠ simulateCopyTrades [] {} 1 0 := by
  intro h
  have h0 : (simulateCopyTrades [] {} 0 0).equity.map (fun p => p.ts) = [0] := by
    norm_num [simulateCopyTrades, engineRun, assembleResult, finalEquityList, emptyEquityTs,
      normalizedTrades, sortStable, insertStable, isWithinRange, paramsOf, followModeOf,
      resolvedFollowRatio, resolvedInitialCapitalUsd, resolvedFollowNotionalUsd,
      resolvedAllowPartialFills, fixedNotionalOf, initEngineState, runTrades, pushEquity,
      toScaledQ, jsRound, clampFinite, JsNum.toQ, toNumber]
  have h1 : (simulateCopyTrades [] {} 1 0).equity.map (fun p => p.ts) = [1] := by
    norm_num [simulateCopyTrades, engineRun, assembleResult, finalEquityList, emptyEquityTs,
      normalizedTrades, sortStable, insertStable, isWithinRange, paramsOf, followModeOf,
      resolvedFollowRatio, resolvedInitialCapitalUsd, resolvedFollowNotionalUsd,
      resolvedAllowPartialFills, fixedNotionalOf, initEngineState, runTrades, pushEquity,
      toScaledQ, jsRound, clampFinite, JsNum.toQ, toNumber]
  rw [h, h1] at h0
  exact absurd h0 (by norm_num)

/-- Claim C7, counterexample: a trade with price 0 inside the window is
selected (it counts toward `usedTradeCount`) but is silently dropped
before the execution engine and receives no equity point: with one
filled BUY and one zero-price trade the equity series has 1 point while
the selected list has 2 trades — refuting "one equity point per selected
trade". -/
theorem c7_counterexample_silent_drop :
    (simulateCopyTrades [simpleTrade .buy (1/2) 1 1, simpleTrade .buy 0 1 2]
        { initialCapitalUsd := some (.fin 100) } 0 0).meta.usedTradeCount = 2 ∧
    (simulateCopyTrades [simpleTrade .buy (1/2) 1 1, simpleTrade .buy 0 1 2]
        { initialCapitalUsd := some (.fin 100) } 0 0).equity.length = 1 := by
  refine ⟨?_, ?_⟩ <;>
    norm_num [simulateCopyTrades, engineRun, assembleResult, finalEquityList, emptyEquityTs,
      normalizedTrades, sortStable, insertStable, isWithinRange, paramsOf, followModeOf,
      resolvedFollowRatio, resolvedInitialCapitalUsd, resolvedFollowNotionalUsd,
      resolvedAllowPartialFills, fixedNotionalOf, initEngineState, runTrades, stepTrade,
      finishTrade, pushEquity, pushSkip, desiredQtyAbs, toScaled, toScaledQ, jsRound,
      clampFinite, JsNum.toQ, jsMulFin, mulDiv, SCALE, toNumber, marketKey, lookupA, setA,
      labelOf, coalesce, simpleTrade, tdiv_of_nonneg, tdiv_of_nonpos]

/-- Claim C8, counterexample: a NaN initial capital is clamped to the
default 10000 and an infinite follow ratio to the default 1 — not to
zero as the claim states (only the fixed notional and trade fields clamp
to zero). -/
theorem c8_counterexample_defaults :
    (simulateCopyTrades []
        { initialCapitalUsd := some .nan, followRatio := some .inf } 0 0).meta.initialCapitalUsd
        = 10000 ∧
    (simulateCopyTrades []
        { initialCapitalUsd := some .nan, followRatio := some .inf } 0 0).meta.followRatio
        = 1 ∧
    ¬((simulateCopyTrades []
        { initialCapitalUsd := some .nan, followRatio := some .inf } 0 0).meta.initialCapitalUsd
        = 0) ∧
    ¬((simulateCopyTrades []
        { initialCapitalUsd := some .nan, followRatio := some .inf } 0 0).meta.followRatio
        = 0) := by
  refine ⟨?_, ?_, ?_, ?_⟩ <;>
    norm_num [simulateCopyTrades, engineRun, assembleResult, finalEquityList, emptyEquityTs,
      normalizedTrades, sortStable, insertStable, isWithinRange, paramsOf, followModeOf,
      resolvedFollowRatio, resolvedInitialCapitalUsd, resolvedFollowNotionalUsd,
      resolvedAllowPartialFills, fixedNotionalOf, initEngineState, runTrades, pushEquity,
      toScaledQ, jsRound, clampFinite, JsNum.toQ, toNumber]

/-- Claim C10, counterexample: (a) for the supplied finite negative fixed
notional -5 the scaled budget is -50000, not 0 as the claim states; (b)
with fixed notional 0 and the sub-scale initial capital 1/100000 the
final equity is 0 (the capital rounded to the 4-decimal fixed-point
grid), not the initial capital itself. -/
theorem c10_counterexample :
    fixedNotionalOf { followNotionalUsd := some (.fin (-5)) } = -50000 ∧
    ¬(fixedNotionalOf { followNotionalUsd := some (.fin (-5)) } = 0) ∧
    (simulateCopyTrades []
        { followNotionalUsd := some (.fin 0),
          initialCapitalUsd := some (.fin (1/100000)) } 0 0).summary.finalEquityUsd = 0 ∧
    ¬((simulateCopyTrades []
        { followNotionalUsd := some (.fin 0),
          initialCapitalUsd := some (.fin (1/100000)) } 0 0).summary.finalEquityUsd
        = 1/100000) := by
  refine ⟨?_, ?_, ?_, ?_⟩ <;>
    norm_num [simulateCopyTrades, engineRun, assembleResult, finalEquityList, emptyEquityTs,
      normalizedTrades, sortStable, insertStable, isWithinRange, paramsOf, followModeOf,
      resolvedFollowRatio, resolvedInitialCapitalUsd, resolvedFollowNotionalUsd,
      resolvedAllowPartialFills, fixedNotionalOf, initEngineState, runTrades, pushEquity,
      toScaledQ, jsRound, clampFinite, JsNum.toQ, toNumber]

/-- Claim C1 (amended): for every trade list and every configuration
whose resolved initial capital is non-negative (the spec's "valid runs" —
callers are responsible for non-negative capital), after every prefix of
the replay the portfolio cash is ≥ 0 and every stored position's held
quantity is ≥ 0: the engine never goes cash-negative and never takes a
short position. -/
theorem c1_cash_and_positions_nonneg (trades : List Trade) (o : CopyTradeSimOptions)
    (n : ℕ) (hcap : 0 ≤ resolvedInitialCapitalUsd o) :
    0 ≤ (stateAfter trades o n).cash ∧
      ∀ e ∈ (stateAfter trades o n).positions, 0 ≤ e.2.qty := by
  refine runTrades_inv NonnegState (fun s t h => stepTrade_nonneg _ s t h) _ _ _ ?_
  refine ⟨toScaledQ_nonneg hcap, ?_⟩
  intro e he
  simp [initEngineState] at he

/-- Witness for claim C1 at a concrete input (scenario-B trades, capital
10, both replay steps). -/
theorem c1_cash_and_positions_nonneg_witness :
    0 ≤ resolvedInitialCapitalUsd
      { initialCapitalUsd := some (.fin 10), followRatio := some (.fin 1),
        allowPartialFills := some true } ∧
    (0 ≤ (stateAfter [simpleTrade .buy (2/5) 100 1, simpleTrade .sell (1/2) 100 2]
        { initialCapitalUsd := some (.fin 10), followRatio := some (.fin 1),
          allowPartialFills := some true } 2).cash ∧
      ∀ e ∈ (stateAfter [simpleTrade .buy (2/5) 100 1, simpleTrade .sell (1/2) 100 2]
        { initialCapitalUsd := some (.fin 10), followRatio := some (.fin 1),
          allowPartialFills := some true } 2).positions, 0 ≤ e.2.qty) :=
  ⟨by norm_num [resolvedInitialCapitalUsd, clampFinite, JsNum.toQ],
    c1_cash_and_positions_nonneg _ _ 2
      (by norm_num [resolvedInitialCapitalUsd, clampFinite, JsNum.toQ])⟩

/-- Claim C2 (amended): the engine is deterministic up to the ambient
clock it reads when it has to synthesize an equity point: whenever a
window bound is supplied or the replay itself produced at least one
equity point, two invocations with identical `(trades, config)` and
identical host timezone yield identical results regardless of the clock
reading.  (The unamended claim fails only through `Date.now()` in the
empty-equity synthesis; see the counterexample.) -/
theorem c2_determinism_with_anchor (trades : List Trade) (o : CopyTradeSimOptions)
    (tz now1 now2 : ℤ)
    (h : o.startTs ≠ none ∨ o.endTs ≠ none ∨ (engineRun trades o).1.equity ≠ []) :
    simulateCopyTrades trades o now1 tz = simulateCopyTrades trades o now2 tz := by
  have hfe : finalEquityList o now1 (engineRun trades o).1 =
      finalEquityList o now2 (engineRun trades o).1 := by
    simp only [finalEquityList]
    split
    · rename_i heq
      have hts : emptyEquityTs o now1 = emptyEquityTs o now2 := by
        rcases h with h | h | h
        · cases hst : o.startTs with
          | none => exact absurd hst h
          | some a => simp [emptyEquityTs, hst]
        · cases hst : o.startTs with
          | some a => simp [emptyEquityTs, hst]
          | none =>
              cases hen : o.endTs with
              | none => exact absurd hen h
              | some b => simp [emptyEquityTs, hst, hen]
        · exact absurd heq h
      rw [hts]
    · rfl
  simp only [simulateCopyTrades]
  rw [hfe]

/-- Witness for claim C2 at a concrete input (a supplied start bound,
clock readings 0 and 1). -/
theorem c2_determinism_with_anchor_witness :
    ({ startTs := some 5 } : CopyTradeSimOptions).startTs ≠ none ∧
    simulateCopyTrades [] { startTs := some 5 } 0 0 =
      simulateCopyTrades [] { startTs := some 5 } 1 0 :=
  ⟨by simp, c2_determinism_with_anchor [] { startTs := some 5 } 0 0 1 (Or.inl (by simp))⟩

/-- Claim C7 (amended): on every run that completes without throwing (in
fixed mode a selected trade whose scaled price is 0 makes the source
throw a `RangeError` from `BigInt` division by zero in `desiredQtyAbs`,
producing no series at all), exactly one equity point is appended for
every selected trade that passes the positivity guard (scaled desired
quantity and scaled price both positive); silently dropped trades
contribute no point, and when no point at all was produced a single
synthetic point is emitted, so the result's equity series has length
`max 1 (number of guard-passing selected trades)`.  The state machine is
total, so the proof does not consume the completion hypothesis; it
restricts the statement to the runs on which the embedding is faithful
to the throwing source. -/
theorem c7_equity_points_count (trades : List Trade) (o : CopyTradeSimOptions)
    (now tz : ℤ) (_hc : completesWithoutThrow trades o) :
    (simulateCopyTrades trades o now tz).equity.length =
      max 1 ((normalizedTrades trades o.startTs o.endTs).filter
        (passesGuard (paramsOf o))).length := by
  have hloop : ∀ (l : List Trade) (s : EngineState) (acc : List SkipReason),
      (runTrades (paramsOf o) s acc l).1.equity.length =
        s.equity.length + (l.filter (passesGuard (paramsOf o))).length := by
    intro l
    induction l with
    | nil => intro s acc; simp [runTrades]
    | cons t rest ih =>
        intro s acc
        rw [runTrades]
        cases hg : passesGuard (paramsOf o) t with
        | false =>
            rw [stepTrade_of_guard_false _ _ _ hg]
            rw [ih]
            simp [List.filter, hg]
        | true =>
            rw [ih]
            rw [stepTrade_equity_len_of_guard_true _ _ _ hg]
            simp [List.filter, hg]
            omega
  have hrun : (engineRun trades o).1.equity.length =
      ((normalizedTrades trades o.startTs o.endTs).filter (passesGuard (paramsOf o))).length := by
    rw [engineRun, hloop]
    simp [initEngineState]
  simp only [simulateCopyTrades, assembleResult]
  rw [List.length_map, finalEquityList]
  split
  · rename_i heq
    have h0 : ((normalizedTrades trades o.startTs o.endTs).filter
        (passesGuard (paramsOf o))).length = 0 := by
      rw [← hrun, heq]
      rfl
    simp [pushEquity, heq, h0]
  · rename_i l heq
    have h1 : 1 ≤ (engineRun trades o).1.equity.length := by
      cases hE : (engineRun trades o).1.equity with
      | nil => exact absurd hE heq
      | cons a rest => simp [hE]
    omega

/-- Witness for claim C7 at a concrete input: a ratio-mode run (which
never throws) with one filled BUY and one silently dropped zero-price
trade. -/
theorem c7_equity_points_count_witness :
    completesWithoutThrow [simpleTrade .buy (1/2) 1 1, simpleTrade .buy 0 1 2]
      { initialCapitalUsd := some (.fin 100) } ∧
    (simulateCopyTrades [simpleTrade .buy (1/2) 1 1, simpleTrade .buy 0 1 2]
        { initialCapitalUsd := some (.fin 100) } 0 0).equity.length =
      max 1 ((normalizedTrades [simpleTrade .buy (1/2) 1 1, simpleTrade .buy 0 1 2]
        ({ initialCapitalUsd := some (.fin 100) } : CopyTradeSimOptions).startTs
        ({ initialCapitalUsd := some (.fin 100) } : CopyTradeSimOptions).endTs).filter
        (passesGuard (paramsOf { initialCapitalUsd := some (.fin 100) }))).length :=
  ⟨Or.inl rfl, c7_equity_points_count _ _ 0 0 (Or.inl rfl)⟩

/-- Claim C9 (confirmed): the recorded skip-reason list is exactly the
first 200 entries of the uncapped encounter-ordered skip sequence, the
skipped-trade counter counts the whole sequence, and hence the list
retains the earliest `min(count, 200)` reasons. -/
theorem c9_skip_reason_cap (trades : List Trade) (o : CopyTradeSimOptions) :
    (engineRun trades o).1.skippedTradeReasons = (engineRun trades o).2.take 200 ∧
    (engineRun trades o).1.skippedTradeCount = (engineRun trades o).2.length ∧
    (engineRun trades o).1.skippedTradeReasons.length =
      min (engineRun trades o).1.skippedTradeCount 200 := by
  obtain ⟨h1, h2⟩ := runTrades_skips (paramsOf o)
    (normalizedTrades trades o.startTs o.endTs)
    (initEngineState (toScaledQ (resolvedInitialCapitalUsd o))) []
    (by simp [initEngineState]) (by simp [initEngineState])
  refine ⟨h1, h2, ?_⟩
  simp only [engineRun]
  rw [h1, h2, List.length_take]
  omega

/-- Claim C10 (amended): a supplied non-positive or non-finite
`followNotionalUsd` puts the engine in fixed mode with a scaled budget
≤ 0 (not necessarily 0: a finite negative value scales to a negative
budget); on every run that completes without throwing (a selected trade
whose scaled price is 0 makes the fixed-mode source throw a `RangeError`
from `BigInt` division by zero before the guard, returning nothing),
every trade's desired quantity is ≤ 0 and every trade is silently
dropped: no realized events, no skips, no partial fills, and the final
equity is the initial capital as resolved and rounded to the 4-decimal
fixed-point grid.  The state machine is total, so the proof does not
consume the completion hypothesis; it restricts the statement to the
runs on which the embedding is faithful to the throwing source. -/
theorem c10_nonpositive_fixed_budget (trades : List Trade) (o : CopyTradeSimOptions)
    (now tz : ℤ) (v : JsNum) (hv : o.followNotionalUsd = some v)
    (hnp : v.isFinite = false ∨ ∃ q : ℚ, v = .fin q ∧ q ≤ 0)
    (_hc : completesWithoutThrow trades o) :
    (simulateCopyTrades trades o now tz).meta.followMode = .fixed ∧
    fixedNotionalOf o ≤ 0 ∧
    (simulateCopyTrades trades o now tz).realized = [] ∧
    (simulateCopyTrades trades o now tz).meta.skippedTradeCount = 0 ∧
    (simulateCopyTrades trades o now tz).meta.partialFillCount = 0 ∧
    (simulateCopyTrades trades o now tz).summary.finalEquityUsd =
      toNumber (toScaledQ (resolvedInitialCapitalUsd o)) ∧
    (simulateCopyTrades trades o now tz).equity.length = 1 := by
  have hmode : followModeOf o = .fixed := by rw [followModeOf, hv]
  have hfix : fixedNotionalOf o ≤ 0 := by
    rw [fixedNotionalOf, hmode]
    rcases hnp with h | ⟨q, rfl, hq⟩
    · have : resolvedFollowNotionalUsd o = 0 := by
        rw [resolvedFollowNotionalUsd, hv]
        cases v with
        | fin q => simp [JsNum.isFinite] at h
        | nan => rfl
        | inf => rfl
        | ninf => rfl
      rw [this]
      norm_num [toScaledQ, jsRound]
    · have : resolvedFollowNotionalUsd o = q := by
        rw [resolvedFollowNotionalUsd, hv]
        rfl
      rw [this, toScaledQ, jsRound]
      have h1 : q * 10000 + 1 / 2 ≤ 1 / 2 := by nlinarith
      have h2 : (⌊q * 10000 + 1 / 2⌋ : ℤ) ≤ ⌊(1 / 2 : ℚ)⌋ := Int.floor_le_floor h1
      norm_num at h2
      exact h2
  have hnoop : engineRun trades o =
      (initEngineState (toScaledQ (resolvedInitialCapitalUsd o)), []) := by
    rw [engineRun]
    exact runTrades_of_fixed_nonpos (paramsOf o) (by simp [paramsOf, hmode])
      (by simp [paramsOf]; exact hfix) _ _ _
  refine ⟨?_, hfix, ?_, ?_, ?_, ?_, ?_⟩ <;>
    simp [simulateCopyTrades, hnoop, assembleResult, finalEquityList, initEngineState,
      pushEquity, followModeOf, hv]

theorem markedSum_recompute {s : EngineState} (h : MarkedInv s) :
    s.markedSum = recomputedMarkSum s.positions := by
  obtain ⟨hmap, hsum, hlp⟩ := h
  rw [hsum, hmap, recomputedMarkSum, sumVals, mapMarked, List.map_map]
  refine congrArg List.sum (List.map_congr_left ?_)
  intro e he
  simp only [Function.comp_apply, markVal, if_neg (hlp e he), mulDiv]
  rw [mul_comm]

/-- Claim C6 (confirmed): the incrementally maintained portfolio-wide
mark sum always equals a full recomputation over the position map (held
quantity × last-observed price, each product in scaled integers with
truncating division — all operands are non-negative in valid runs, where
truncation and floor agree), and every equity entry ever appended equals
the cash snapshot plus that recomputed sum at its append step. -/
theorem c6_equity_mark_identity (trades : List Trade) (o : CopyTradeSimOptions) (n : ℕ) :
    (stateAfter trades o n).markedSum = recomputedMarkSum (stateAfter trades o n).positions ∧
    ∀ p ∈ (stateAfter trades o n).equity, ∃ m, m ≤ n ∧
      p.cash = (stateAfter trades o m).cash ∧
      p.equity = (stateAfter trades o m).cash +
        recomputedMarkSum (stateAfter trades o m).positions := by
  have hInv : ∀ k : ℕ, MarkedInv (stateAfter trades o k) := by
    intro k
    refine runTrades_inv MarkedInv (fun s t h => stepTrade_markedInv _ s t h) _ _ _ ?_
    refine ⟨rfl, rfl, ?_⟩
    intro e he
    simp [initEngineState] at he
  refine ⟨markedSum_recompute (hInv n), ?_⟩
  induction n with
  | zero =>
      intro p hp
      rw [stateAfter_zero] at hp
      simp [initEngineState] at hp
  | succ k ih =>
      intro p hp
      by_cases hlen : (normalizedTrades trades o.startTs o.endTs).length ≤ k
      · rw [stateAfter_succ_of_len_le _ _ _ hlen] at hp
        obtain ⟨m, hm, h1, h2⟩ := ih p hp
        exact ⟨m, by omega, h1, h2⟩
      · push_neg at hlen
        obtain ⟨x, hx⟩ : ∃ x, (normalizedTrades trades o.startTs o.endTs)[k]? = some x :=
          ⟨_, List.getElem?_eq_getElem hlen⟩
        rw [stateAfter_succ_of_getElem _ _ _ _ hx] at hp
        rcases stepTrade_equity_snoc (paramsOf o) (stateAfter trades o k) x with hsame | hsnoc
        · rw [hsame] at hp
          obtain ⟨m, hm, h1, h2⟩ := ih p hp
          exact ⟨m, by omega, h1, h2⟩
        · rw [hsnoc] at hp
          rcases List.mem_append.1 hp with hold | hnew
          · obtain ⟨m, hm, h1, h2⟩ := ih p hold
            exact ⟨m, by omega, h1, h2⟩
          · rw [List.mem_singleton] at hnew
            refine ⟨k + 1, le_rfl, ?_, ?_⟩
            · rw [hnew, stateAfter_succ_of_getElem _ _ _ _ hx]
            · rw [hnew, stateAfter_succ_of_getElem _ _ _ _ hx]
              have hstep : MarkedInv ((stepTrade (paramsOf o) (stateAfter trades o k) x).1) := by
                rw [← stateAfter_succ_of_getElem _ _ _ _ hx]
                exact hInv (k + 1)
              rw [markedSum_recompute hstep]

/-- Claim C8 (amended): the engine clamps non-finite numeric inputs per
destination, never propagating NaN, but not uniformly to zero.  A
non-finite trade price or size scales to 0; in ratio mode such a trade
then fails the positivity guard and is silently dropped; in fixed mode
the trade's size is ignored entirely (the desired quantity depends only
on the budget and the price), and a non-finite price — scaling to 0 —
puts the run outside `completesWithoutThrow`: the source throws a
`RangeError` from `BigInt` division by zero instead of dropping.  A
non-finite `followNotionalUsd` resolves to a budget of 0, while a
non-finite initial capital falls back to the default 10000 and a
non-finite follow ratio to the default 1. -/
theorem c8_nonfinite_clamping (v : JsNum) (hv : v.isFinite = false) :
    toScaled v = 0 ∧
    (∀ r : ℚ, toScaled (jsMulFin v r) = 0) ∧
    (∀ (o : CopyTradeSimOptions) (t : Trade), followModeOf o = .ratio → t.price = v →
      passesGuard (paramsOf o) t = false) ∧
    (∀ (o : CopyTradeSimOptions) (t : Trade), followModeOf o = .ratio → t.size = v →
      passesGuard (paramsOf o) t = false) ∧
    (∀ (Pp : Params) (t1 t2 : Trade) (price : ℤ), Pp.followMode = .fixed →
      desiredQtyAbs Pp t1 price = desiredQtyAbs Pp t2 price) ∧
    (∀ (trades : List Trade) (o : CopyTradeSimOptions) (t : Trade),
      followModeOf o = .fixed → t.price = v →
      t ∈ normalizedTrades trades o.startTs o.endTs →
      ¬completesWithoutThrow trades o) ∧
    (∀ o : CopyTradeSimOptions, o.initialCapitalUsd = some v →
      resolvedInitialCapitalUsd o = 10000) ∧
    (∀ o : CopyTradeSimOptions, o.followRatio = some v → resolvedFollowRatio o = 1) ∧
    (∀ o : CopyTradeSimOptions, o.followNotionalUsd = some v →
      resolvedFollowNotionalUsd o = 0 ∧ fixedNotionalOf o = 0) := by
  have h0 : toScaled v = 0 := by
    cases v with
    | fin q => simp [JsNum.isFinite] at hv
    | nan | inf | ninf => norm_num [toScaled, clampFinite, JsNum.toQ, toScaledQ, jsRound]
  have hmul0 : ∀ r : ℚ, toScaled (jsMulFin v r) = 0 := by
    intro r
    cases v with
    | fin q => simp [JsNum.isFinite] at hv
    | nan | inf | ninf =>
        rw [jsMulFin]
        try split_ifs
        all_goals norm_num [toScaled, clampFinite, JsNum.toQ, toScaledQ, jsRound]
  have hcap : ∀ o : CopyTradeSimOptions, o.initialCapitalUsd = some v →
      resolvedInitialCapitalUsd o = 10000 := by
    intro o ho
    rw [resolvedInitialCapitalUsd, ho]
    cases v with
    | fin q => simp [JsNum.isFinite] at hv
    | nan | inf | ninf => rfl
  have hrat : ∀ o : CopyTradeSimOptions, o.followRatio = some v →
      resolvedFollowRatio o = 1 := by
    intro o ho
    rw [resolvedFollowRatio, ho]
    cases v with
    | fin q => simp [JsNum.isFinite] at hv
    | nan | inf | ninf => rfl
  have hnot : ∀ o : CopyTradeSimOptions, o.followNotionalUsd = some v →
      resolvedFollowNotionalUsd o = 0 ∧ fixedNotionalOf o = 0 := by
    intro o ho
    have h1 : resolvedFollowNotionalUsd o = 0 := by
      rw [resolvedFollowNotionalUsd, ho]
      cases v with
      | fin q => simp [JsNum.isFinite] at hv
      | nan | inf | ninf => rfl
    refine ⟨h1, ?_⟩
    rw [fixedNotionalOf]
    have hm : followModeOf o = .fixed := by rw [followModeOf, ho]
    rw [hm, h1]
    norm_num [toScaledQ, jsRound]
  refine ⟨h0, hmul0, ?_, ?_, ?_, ?_, hcap, hrat, hnot⟩
  · intro o t hm ht
    rw [passesGuard]
    have hp : toScaled t.price = 0 := by rw [ht]; exact h0
    simp [hp]
  · intro o t hm ht
    rw [passesGuard]
    have hq : desiredQtyAbs (paramsOf o) t (toScaled t.price) = 0 := by
      simp [desiredQtyAbs, paramsOf, hm, ht, hmul0]
    simp [hq]
  · intro Pp t1 t2 price hm
    simp [desiredQtyAbs, hm]
  · intro trades o t hm ht hmem hcomp
    rcases hcomp with hr | hall
    · rw [hm] at hr
      exact FollowMode.noConfusion hr
    · exact hall t hmem (by rw [ht]; exact h0)

/-- Claim C3 (confirmed): round trip.  In ratio mode with ratio 1 and the
default initial capital of 10000, replaying exactly two trades on the
same market-outcome key — a BUY of quantity Q at price P whose scaled
notional does not exceed the (scaled) initial capital, followed by a SELL
of the same quantity at the same price — yields total realized P&L 0 and
a final equity equal to the initial capital.  (When P or Q is small
enough to scale to a non-positive quantity, both trades are silently
dropped, realized P&L is vacuously 0 and equity stays at the initial
capital; otherwise the BUY fills fully and the SELL unwinds it
exactly.) -/
theorem c3_round_trip (P Q : ℚ) (tb tsl : Trade) (now tz : ℤ)
    (hbuy : tb.side = .buy) (hsell : tsl.side = .sell)
    (hsizeb : tb.size = .fin Q) (hsizes : tsl.size = .fin Q)
    (hpriceb : tb.price = .fin P) (hprices : tsl.price = .fin P)
    (hkey : marketKey tsl = marketKey tb)
    (hts : tb.timestamp ≤ tsl.timestamp)
    (hP : 0 < P) (hQ : 0 < Q)
    (hfill : mulDiv (toScaledQ P) (toScaledQ Q) SCALE ≤ toScaledQ 10000) :
    ((simulateCopyTrades [tb, tsl] { followRatio := some (.fin 1) } now tz).realized.map
        (fun e => e.pnlUsd)).sum = 0 ∧
    (simulateCopyTrades [tb, tsl]
        { followRatio := some (.fin 1) } now tz).summary.finalEquityUsd =
      (simulateCopyTrades [tb, tsl]
        { followRatio := some (.fin 1) } now tz).meta.initialCapitalUsd := by
  have hiCap : toScaledQ 10000 = 100000000 := by norm_num [toScaledQ, jsRound]
  rw [hiCap] at hfill
  have hsel : normalizedTrades [tb, tsl]
      ({ followRatio := some (.fin 1) } : CopyTradeSimOptions).startTs
      ({ followRatio := some (.fin 1) } : CopyTradeSimOptions).endTs = [tb, tsl] := by
    simp [normalizedTrades, isWithinRange, sortStable, insertStable, hts]
  by_cases hdeg : toScaledQ P ≤ 0 ∨ toScaledQ Q ≤ 0
  · have hpg : ∀ t : Trade, t.size = .fin Q → t.price = .fin P →
        passesGuard (paramsOf { followRatio := some (.fin 1) }) t = false := by
      intro t h1 h2
      rw [passesGuard]
      rcases hdeg with h | h
      · have hple : toScaled t.price ≤ 0 := by rw [h2]; exact h
        simp [hple]
      · have hqle : desiredQtyAbs (paramsOf { followRatio := some (.fin 1) }) t
            (toScaled t.price) ≤ 0 := by
          simp only [desiredQtyAbs, paramsOf, followModeOf, resolvedFollowRatio,
            clampFinite, JsNum.toQ, h1, jsMulFin, mul_one, Option.getD]
          exact h
        simp [hqle]
    have hrun : engineRun [tb, tsl] { followRatio := some (.fin 1) } =
        (initEngineState (toScaledQ (resolvedInitialCapitalUsd
          { followRatio := some (.fin 1) })), []) := by
      rw [engineRun, hsel]
      simp only [runTrades, stepTrade_of_guard_false _ _ _ (hpg tb hsizeb hpriceb),
        stepTrade_of_guard_false _ _ _ (hpg tsl hsizes hprices)]
      rfl
    refine ⟨?_, ?_⟩ <;>
      norm_num [simulateCopyTrades, hrun, assembleResult, finalEquityList, emptyEquityTs,
        initEngineState, pushEquity, resolvedInitialCapitalUsd, clampFinite, JsNum.toQ,
        toNumber, toScaledQ, jsRound]
  · rw [not_or, not_le, not_le] at hdeg
    obtain ⟨hp, hq⟩ := hdeg
    have hp' : ¬(toScaledQ P ≤ 0) := not_le.mpr hp
    have hq' : ¬(toScaledQ Q ≤ 0) := not_le.mpr hq
    have hp0 : ¬(toScaledQ P = 0) := by omega
    have hcash : ¬((100000000 : ℤ) < mulDiv (toScaledQ P) (toScaledQ Q) SCALE) :=
      not_lt.mpr hfill
    refine ⟨?_, ?_⟩ <;>
      norm_num [simulateCopyTrades, engineRun, assembleResult, finalEquityList,
        emptyEquityTs, hsel, paramsOf, followModeOf, resolvedFollowRatio,
        resolvedInitialCapitalUsd, resolvedFollowNotionalUsd, resolvedAllowPartialFills,
        fixedNotionalOf, initEngineState, runTrades, stepTrade, finishTrade, pushEquity,
        pushSkip, desiredQtyAbs, toScaled, clampFinite, JsNum.toQ, jsMulFin, toNumber,
        lookupA, setA, labelOf, coalesce, hbuy, hsell, hsizeb, hsizes, hpriceb, hprices,
        hkey, hts, hq', hp', hp0, hcash, hiCap, mulDiv_zero_left, mulDiv_zero_mid]

/-- Witness for claim C3 at a concrete input: P = 1/2, Q = 1. -/
theorem c3_round_trip_witness :
    ((0 : ℚ) < 1/2 ∧ (0 : ℚ) < 1 ∧ (10 : ℤ) ≤ 20 ∧
      mulDiv (toScaledQ (1/2)) (toScaledQ 1) SCALE ≤ toScaledQ 10000) ∧
    ((simulateCopyTrades [simpleTrade .buy (1/2) 1 10, simpleTrade .sell (1/2) 1 20]
        { followRatio := some (.fin 1) } 0 0).realized.map
        (fun e => e.pnlUsd)).sum = 0 ∧
    (simulateCopyTrades [simpleTrade .buy (1/2) 1 10, simpleTrade .sell (1/2) 1 20]
        { followRatio := some (.fin 1) } 0 0).summary.finalEquityUsd =
      (simulateCopyTrades [simpleTrade .buy (1/2) 1 10, simpleTrade .sell (1/2) 1 20]
        { followRatio := some (.fin 1) } 0 0).meta.initialCapitalUsd :=
  ⟨⟨by norm_num, by norm_num, by norm_num,
      by norm_num [mulDiv, toScaledQ, jsRound, SCALE, tdiv_of_nonneg]⟩,
    c3_round_trip (1/2) 1 (simpleTrade .buy (1/2) 1 10) (simpleTrade .sell (1/2) 1 20)
      0 0 rfl rfl rfl rfl rfl rfl rfl (by norm_num [simpleTrade]) (by norm_num)
      (by norm_num) (by norm_num [mulDiv, toScaledQ, jsRound, SCALE, tdiv_of_nonneg])⟩

/-- Witness for claim C6 at a concrete input: the first equity entry of
the scenario-B replay satisfies the cash-plus-recomputed-mark-sum
identity. -/
theorem c6_equity_mark_identity_witness :
    ({ ts := 1, equity := 100000, cash := 0 } : EquityEntry) ∈
      (stateAfter [simpleTrade .buy (2/5) 100 1, simpleTrade .sell (1/2) 100 2]
        { initialCapitalUsd := some (.fin 10), followRatio := some (.fin 1),
          allowPartialFills := some true } 2).equity ∧
    (∃ m, m ≤ 2 ∧
      ({ ts := 1, equity := 100000, cash := 0 } : EquityEntry).cash =
        (stateAfter [simpleTrade .buy (2/5) 100 1, simpleTrade .sell (1/2) 100 2]
          { initialCapitalUsd := some (.fin 10), followRatio := some (.fin 1),
            allowPartialFills := some true } m).cash ∧
      ({ ts := 1, equity := 100000, cash := 0 } : EquityEntry).equity =
        (stateAfter [simpleTrade .buy (2/5) 100 1, simpleTrade .sell (1/2) 100 2]
          { initialCapitalUsd := some (.fin 10), followRatio := some (.fin 1),
            allowPartialFills := some true } m).cash +
        recomputedMarkSum (stateAfter [simpleTrade .buy (2/5) 100 1,
            simpleTrade .sell (1/2) 100 2]
          { initialCapitalUsd := some (.fin 10), followRatio := some (.fin 1),
            allowPartialFills := some true } m).positions) :=
  ⟨by norm_num [stateAfter, normalizedTrades, sortStable, insertStable, isWithinRange,
      paramsOf, followModeOf, resolvedFollowRatio, resolvedInitialCapitalUsd,
      resolvedFollowNotionalUsd, resolvedAllowPartialFills, fixedNotionalOf,
      initEngineState, runTrades, stepTrade, finishTrade, pushEquity, pushSkip,
      desiredQtyAbs, toScaled, toScaledQ, jsRound, clampFinite, JsNum.toQ, jsMulFin,
      mulDiv, SCALE, toNumber, marketKey, lookupA, setA, labelOf, coalesce, simpleTrade,
      tdiv_of_nonneg, tdiv_of_nonpos],
    (c6_equity_mark_identity [simpleTrade .buy (2/5) 100 1, simpleTrade .sell (1/2) 100 2]
      { initialCapitalUsd := some (.fin 10), followRatio := some (.fin 1),
        allowPartialFills := some true } 2).2 _
      (by norm_num [stateAfter, normalizedTrades, sortStable, insertStable, isWithinRange,
        paramsOf, followModeOf, resolvedFollowRatio, resolvedInitialCapitalUsd,
        resolvedFollowNotionalUsd, resolvedAllowPartialFills, fixedNotionalOf,
        initEngineState, runTrades, stepTrade, finishTrade, pushEquity, pushSkip,
        desiredQtyAbs, toScaled, toScaledQ, jsRound, clampFinite, JsNum.toQ, jsMulFin,
        mulDiv, SCALE, toNumber, marketKey, lookupA, setA, labelOf, coalesce, simpleTrade,
        tdiv_of_nonneg, tdiv_of_nonpos])⟩

/-- Witness for claim C8 at the concrete non-finite value NaN. -/
theorem c8_nonfinite_clamping_witness :
    JsNum.isFinite .nan = false ∧
    (toScaled .nan = 0 ∧
      (∀ r : ℚ, toScaled (jsMulFin .nan r) = 0) ∧
      (∀ (o : CopyTradeSimOptions) (t : Trade), followModeOf o = .ratio →
        t.price = .nan → passesGuard (paramsOf o) t = false) ∧
      (∀ (o : CopyTradeSimOptions) (t : Trade), followModeOf o = .ratio →
        t.size = .nan → passesGuard (paramsOf o) t = false) ∧
      (∀ (Pp : Params) (t1 t2 : Trade) (price : ℤ), Pp.followMode = .fixed →
        desiredQtyAbs Pp t1 price = desiredQtyAbs Pp t2 price) ∧
      (∀ (trades : List Trade) (o : CopyTradeSimOptions) (t : Trade),
        followModeOf o = .fixed → t.price = .nan →
        t ∈ normalizedTrades trades o.startTs o.endTs →
        ¬completesWithoutThrow trades o) ∧
      (∀ o : CopyTradeSimOptions, o.initialCapitalUsd = some .nan →
        resolvedInitialCapitalUsd o = 10000) ∧
      (∀ o : CopyTradeSimOptions, o.followRatio = some .nan → resolvedFollowRatio o = 1) ∧
      (∀ o : CopyTradeSimOptions, o.followNotionalUsd = some .nan →
        resolvedFollowNotionalUsd o = 0 ∧ fixedNotionalOf o = 0)) :=
  ⟨rfl, c8_nonfinite_clamping .nan rfl⟩

/-- Witness for claim C10 at a concrete input (fixed notional -5, one
trade with a non-zero scaled price, so the run completes). -/
theorem c10_nonpositive_fixed_budget_witness :
    ({ followNotionalUsd := some (.fin (-5)) } : CopyTradeSimOptions).followNotionalUsd
      = some (.fin (-5)) ∧
    completesWithoutThrow [simpleTrade .buy (1/2) 1 0]
      { followNotionalUsd := some (.fin (-5)) } ∧
    ((simulateCopyTrades [simpleTrade .buy (1/2) 1 0]
        { followNotionalUsd := some (.fin (-5)) } 0 0).meta.followMode = .fixed ∧
      fixedNotionalOf { followNotionalUsd := some (.fin (-5)) } ≤ 0 ∧
      (simulateCopyTrades [simpleTrade .buy (1/2) 1 0]
        { followNotionalUsd := some (.fin (-5)) } 0 0).realized = [] ∧
      (simulateCopyTrades [simpleTrade .buy (1/2) 1 0]
        { followNotionalUsd := some (.fin (-5)) } 0 0).meta.skippedTradeCount = 0 ∧
      (simulateCopyTrades [simpleTrade .buy (1/2) 1 0]
        { followNotionalUsd := some (.fin (-5)) } 0 0).meta.partialFillCount = 0 ∧
      (simulateCopyTrades [simpleTrade .buy (1/2) 1 0]
        { followNotionalUsd := some (.fin (-5)) } 0 0).summary.finalEquityUsd =
        toNumber (toScaledQ (resolvedInitialCapitalUsd
          { followNotionalUsd := some (.fin (-5)) })) ∧
      (simulateCopyTrades [simpleTrade .buy (1/2) 1 0]
        { followNotionalUsd := some (.fin (-5)) } 0 0).equity.length = 1) := by
  have hc : completesWithoutThrow [simpleTrade .buy (1/2) 1 0]
      { followNotionalUsd := some (.fin (-5)) } := by
    right
    intro t ht
    simp [normalizedTrades, sortStable, insertStable, isWithinRange] at ht
    subst ht
    norm_num [simpleTrade, toScaled, clampFinite, JsNum.toQ, toScaledQ, jsRound]
  exact ⟨rfl, hc, c10_nonpositive_fixed_budget _ _ 0 0 (.fin (-5)) rfl
    (Or.inr ⟨-5, rfl, by norm_num⟩) hc⟩

end CopyTradeSim
